import Mathlib

/-!
Verification of the Euchre rules engine (card ranking with bower logic,
legal-play resolution, dealing, bidding state machine, trick resolution and
scoring) as implemented in the repository's final application version
(`src/unnamed/part_000`).  The JavaScript engine is shallowly embedded as
executable Lean definitions; the asynchronous pieces (the deferred trick
resolution and the bot polling driver) are modelled as explicit steps of a
transition relation, following the single-writer atomic-transition model the
code relies on.
-/

set_option maxHeartbeats 4000000
set_option maxRecDepth 10000

/-- The four suits, in the order of the source `SUITS` array: ♠ ♥ ♦ ♣. -/
inductive Suit where
  | spade
  | heart
  | diamond
  | club
deriving DecidableEq, Repr, Fintype

/-- The six ranks of the 24-card deck, source `RANKS`: 9 10 J Q K A. -/
inductive Rank where
  | n9
  | n10
  | jack
  | queen
  | king
  | ace
deriving DecidableEq, Repr, Fintype

/-- A card, source object `{ s, r }`. -/
structure Card where
  s : Suit
  r : Rank
deriving DecidableEq, Repr, Fintype

instance : Inhabited Card := ⟨⟨Suit.spade, Rank.n9⟩⟩

/-- Source `rankOrder`: A=6, K=5, Q=4, J=3, 10=2, 9=1. -/
def rankOrder : Rank → Nat
  | Rank.ace => 6
  | Rank.king => 5
  | Rank.queen => 4
  | Rank.jack => 3
  | Rank.n10 => 2
  | Rank.n9 => 1

/-- Source `isRedSuit`. -/
def isRedSuit (s : Suit) : Bool := s = Suit.heart || s = Suit.diamond

/-- Source `sameColor`. -/
def sameColor (a b : Suit) : Bool := isRedSuit a = isRedSuit b

/-- Source `isRightBower`: the jack of the trump suit. -/
def isRightBower (c : Card) (trump : Suit) : Bool :=
  c.r = Rank.jack && c.s = trump

/-- Source `isLeftBower`: the other jack of the trump's colour. -/
def isLeftBower (c : Card) (trump : Suit) : Bool :=
  c.r = Rank.jack && c.s ≠ trump && sameColor c.s trump

/-- Source `effectiveSuit`; `trump` is `none` before bidding has fixed it. -/
def effectiveSuit (c : Card) (trump : Option Suit) : Suit :=
  match trump with
  | none => c.s
  | some t => if isRightBower c t || isLeftBower c t then t else c.s

/-- Source `cardPower`.  Both `trump` and `leadSuit` are nullable in the
source; the `if (trump)` / `if (leadSuit ...)` truthiness tests become
matches on the options. -/
def cardPower (c : Card) (trump leadSuit : Option Suit) : Nat :=
  match trump with
  | some t =>
    if isRightBower c t then 200
    else if isLeftBower c t then 190
    else cardPowerBase c trump leadSuit
  | none => cardPowerBase c trump leadSuit
where
  /-- The part of `cardPower` after the bower checks. -/
  cardPowerBase (c : Card) (trump leadSuit : Option Suit) : Nat :=
    let eff := effectiveSuit c trump
    let isTrump : Bool := trump = some eff
    let followsLead : Bool := leadSuit = some eff
    if leadSuit.isSome && !isTrump && !followsLead then 0
    else (if isTrump then 100 else 50) + rankOrder c.r

/-- Source `isPartner`: same team iff same parity of seat. -/
def isPartner (a b : Nat) : Bool := a % 2 = b % 2

/-- Source `legalCards`: all cards when leading, else the cards following
the led suit by effective suit, else the whole hand. -/
def legalCards (hand : List Card) (trump leadSuit : Option Suit) : List Card :=
  match leadSuit with
  | none => hand
  | some l =>
    let follows := hand.filter fun c => effectiveSuit c trump = l
    if follows.length ≠ 0 then follows else hand

/-- Source `SUITS` as a list (deck construction order). -/
def SUITS : List Suit := [Suit.spade, Suit.heart, Suit.diamond, Suit.club]

/-- Source `RANKS` as a list (deck construction order). -/
def RANKS : List Rank :=
  [Rank.n9, Rank.n10, Rank.jack, Rank.queen, Rank.king, Rank.ace]

/-- Source `makeDeck`: the 24-card cross product, suits outer. -/
def makeDeck : List Card :=
  SUITS.flatMap fun s => RANKS.map fun r => ⟨s, r⟩

/-- Swap the entries at positions `i` and `j` (the body of one step of the
source Fisher–Yates loop `[a[i], a[j]] = [a[j], a[i]]`). -/
def swapAt (l : List α) (i j : Nat) : List α :=
  match l.get? i, l.get? j with
  | some a, some b => (l.set i b).set j a
  | _, _ => l

/-- The source `shuffle` loop, iterating `i` from `arr.length - 1` down to 1;
`choices` supplies the successive values of `Math.floor(Math.random()*(i+1))`,
reduced mod `i+1` to keep them in the range the source draws from. -/
def shuffleAux (choices : Nat → Nat) (a : List α) : Nat → List α
  | 0 => a
  | i + 1 => shuffleAux choices (swapAt a (i + 1) (choices (i + 1) % (i + 2))) i

/-- Source `shuffle`, parametrised by the random draws. -/
def shuffle (choices : Nat → Nat) (arr : List α) : List α :=
  shuffleAux choices arr (arr.length - 1)

/-- One `deck.pop()`: the last element and the remaining deck. -/
def popLast (l : List α) : Option α × List α := (l.getLast?, l.dropLast)

/-- The dealing loop of source `dealHand`: `n` iterations of
`hands[idx].push(deck.pop()); idx = (idx+1)%4`.  (On an empty deck the
source would push `undefined`; that case cannot occur with 24-card decks
and is modelled as pushing nothing.) -/
def dealLoop (hands : List (List Card)) (deck : List Card) (idx : Nat) :
    Nat → List (List Card) × List Card
  | 0 => (hands, deck)
  | n + 1 =>
    match deck.getLast? with
    | none => dealLoop hands deck.dropLast ((idx + 1) % 4) n
    | some c =>
      dealLoop (hands.set idx (hands.getD idx [] ++ [c])) deck.dropLast
        ((idx + 1) % 4) n

/-- Source `dealHand` on an already-shuffled deck: 20 cards dealt round
robin, then the next pop is the upcard. -/
def dealHand (deck : List Card) : List (List Card) × Option Card :=
  let r := dealLoop [[], [], [], []] deck 0 20
  (r.1, r.2.getLast?)

/-- The phases of the source state machine (the `phase` state string). -/
inductive Phase where
  | idle
  | bid1
  | dealer_discard
  | bid2
  | playing
  | hand_over
deriving DecidableEq, Repr

/-- One `{ player, card }` entry of the current trick. -/
structure TrickEntry where
  player : Nat
  card : Card
deriving DecidableEq, Repr

instance : Inhabited TrickEntry := ⟨⟨0, default⟩⟩

/-- The bid-log messages produced by `logBid`, one constructor per call
site, carrying the data interpolated into the message text. -/
inductive LogEntry where
  | newHand (upcard : Option Card)
  | passes (seat : Nat)
  | round2 (upSuit : Option Suit)
  | screwDealer (dealer : Nat)
  | ordersUp (seat : Nat) (t : Suit) (alone : Bool)
  | dealerSitsOut (dealer : Nat)
  | pickedUp (dealer : Nat)
  | calls (seat : Nat) (t : Suit) (alone : Bool)
deriving DecidableEq, Repr

/-- The engine state: the React state variables of the main component that
carry game (not presentation) content. -/
structure GameState where
  phase : Phase
  hands : List (List Card)
  upcard : Option Card
  dealer : Nat
  turn : Nat
  trump : Option Suit
  maker : Option Nat
  makerTeam : Option Nat
  alonePlayer : Option Nat
  trick : List TrickEntry
  tricksWonTeam : List Nat
  tricksWonPlayer : List Nat
  tricksCompleted : Nat
  score : List Nat
  bidLog : List LogEntry
  pendingDealerPickup : Bool
  forcedDealerPick : Bool
deriving DecidableEq, Repr

/-- Source `teamOf`. -/
def teamOf (p : Nat) : Nat := p % 2

/-- `(caller + 2) % 4`, the fallback partner computation in `orderUp`. -/
def partnerOf (p : Nat) : Nat := (p + 2) % 4

/-- Source derived value `inactivePlayer`: the lone seat's partner. -/
def inactivePlayer (s : GameState) : Option Nat := s.alonePlayer.map partnerOf

/-- Source `gameOver`: `score[0] >= 10 || score[1] >= 10`. -/
def gameOver (s : GameState) : Prop :=
  10 ≤ s.score.getD 0 0 ∨ 10 ≤ s.score.getD 1 0

instance (s : GameState) : Decidable (gameOver s) := by
  unfold gameOver; infer_instance

/-- Source derived value `leadSuit`: null unless a trick has started and
trump is set. -/
def leadSuitOf (s : GameState) : Option Suit :=
  match s.trick, s.trump with
  | [], _ => none
  | _, none => none
  | e :: _, some t => some (effectiveSuit e.card (some t))

/-- Source `nextTurnIndex`: rotate one seat, skipping the inactive seat. -/
def nextTurnIndex (s : GameState) (cur : Nat) : Nat :=
  let n := (cur + 1) % 4
  match inactivePlayer s with
  | some ip => if n = ip then (n + 1) % 4 else n
  | none => n

/-- Source `normalizeTurnMaybe`. -/
def normalizeTurnMaybe (s : GameState) (t : Nat) : Nat :=
  match inactivePlayer s with
  | some ip => if t = ip then nextTurnIndex s t else t
  | none => t

/-- The required trick size, `inactivePlayer === null ? 4 : 3`. -/
def targetCount (s : GameState) : Nat :=
  match inactivePlayer s with
  | none => 4
  | some _ => 3

/-- `SUITS.indexOf`. -/
def suitIndex : Suit → Nat
  | Suit.spade => 0
  | Suit.heart => 1
  | Suit.diamond => 2
  | Suit.club => 3

/-- The sort key of `sortHandForTrump`. -/
def sortKey (t : Suit) (c : Card) : Nat :=
  let eff := effectiveSuit c (some t)
  let cat := if eff = t then 3 else if sameColor eff t then 2 else 1
  cat * 1000 + suitIndex eff * 100 + cardPower c (some t) (some eff)

/-- Stable insertion of a card behind all earlier cards of smaller or
equal key. -/
def insertSorted (key : Card → Nat) (x : Card) : List Card → List Card
  | [] => [x]
  | y :: ys => if key y ≤ key x then y :: insertSorted key x ys else x :: y :: ys

/-- Stable sort by key (insertion sort, processing the list left to
right), modelling the stable JavaScript `Array.prototype.sort`. -/
def sortByKey (key : Card → Nat) (hand : List Card) : List Card :=
  hand.foldl (fun acc x => insertSorted key x acc) []

/-- Source `sortHandForTrump` (display ordering of the human hand). -/
def sortHandForTrump (hand : List Card) (trump : Option Suit) : List Card :=
  match trump with
  | none => hand
  | some t => sortByKey (sortKey t) hand

/-- The recurring `setDeal(prev => hands with hand 0 sorted)` update. -/
def sortHand0 (s : GameState) (trump : Option Suit) : GameState :=
  { s with hands := s.hands.set 0 (sortHandForTrump (s.hands.getD 0 []) trump) }

/-- Source `startNewHand`, with the shuffled deck supplied explicitly
(the source draws it from `Math.random` inside `dealHand`). -/
def startNewHand (s : GameState) (deck : List Card) (newDealer : Nat) : GameState :=
  let dealt := dealHand deck
  { s with
    hands := dealt.1
    upcard := dealt.2
    trump := none
    maker := none
    makerTeam := none
    alonePlayer := none
    bidLog := [LogEntry.newHand dealt.2]
    trick := []
    tricksWonTeam := [0, 0]
    tricksWonPlayer := [0, 0, 0, 0]
    tricksCompleted := 0
    pendingDealerPickup := false
    forcedDealerPick := false
    turn := (newDealer + 1) % 4
    phase := Phase.bid1 }

/-- Source `nextDealerAndHand`: advance the dealer, then start a hand. -/
def nextDealerAndHand (s : GameState) (deck : List Card) : GameState :=
  startNewHand { s with dealer := (s.dealer + 1) % 4 } deck ((s.dealer + 1) % 4)

/-- Source `pass`. -/
def passA (s : GameState) : GameState :=
  if s.phase ≠ Phase.bid1 ∧ s.phase ≠ Phase.bid2 then s
  else
    let s1 := { s with bidLog := s.bidLog ++ [LogEntry.passes s.turn] }
    let next := (s.turn + 1) % 4
    let backToFirst := next = (s.dealer + 1) % 4
    if s.phase = Phase.bid1 then
      if backToFirst then
        { s1 with phase := Phase.bid2, turn := (s.dealer + 1) % 4,
                  bidLog := s1.bidLog ++ [LogEntry.round2 (s.upcard.map Card.s)] }
      else { s1 with turn := next }
    else
      if backToFirst then
        { s1 with forcedDealerPick := true, turn := s.dealer,
                  bidLog := s1.bidLog ++ [LogEntry.screwDealer s.dealer] }
      else { s1 with turn := next }

/-- Source `orderUp`.  The turn values written here are the settled ones:
the source's `useEffect` on `inactivePlayer` re-normalises `turn` as soon
as the new `alonePlayer` value is rendered, so `normalizeTurnMaybe` is
computed against the updated state `s1`.  (In the non-sitting-out branch
the dealer is never the new inactive seat, so `setTurn(dealer)` needs no
normalisation.) -/
def orderUpA (s : GameState) (goAlone : Bool) : GameState :=
  if s.phase ≠ Phase.bid1 then s
  else match s.upcard with
  | none => s
  | some u =>
    let caller := s.turn
    let t := u.s
    let alone' := if goAlone then some caller else none
    let s1 := { s with
      trump := some t, maker := some caller,
      makerTeam := some (teamOf caller), alonePlayer := alone',
      bidLog := s.bidLog ++ [LogEntry.ordersUp caller t goAlone] }
    let dealerIsSittingOut := goAlone && partnerOf caller = s.dealer
    let s2 :=
      if dealerIsSittingOut then
        { s1 with pendingDealerPickup := false, phase := Phase.playing,
                  forcedDealerPick := false,
                  turn := normalizeTurnMaybe s1 ((s.dealer + 1) % 4),
                  bidLog := s1.bidLog ++ [LogEntry.dealerSitsOut s.dealer] }
      else
        { s1 with pendingDealerPickup := true, phase := Phase.dealer_discard,
                  turn := s.dealer }
    sortHand0 s2 (some t)

/-- Source `callSuit`. -/
def callSuitA (s : GameState) (suit : Suit) (goAlone : Bool) : GameState :=
  if s.phase ≠ Phase.bid2 ∧ s.forcedDealerPick = false then s
  else match s.upcard with
  | none => s
  | some u =>
    if suit = u.s then s
    else
      let caller := s.turn
      let alone' := if goAlone then some caller else none
      let s1 := { s with
        trump := some suit, maker := some caller,
        makerTeam := some (teamOf caller), alonePlayer := alone',
        bidLog := s.bidLog ++ [LogEntry.calls caller suit goAlone],
        phase := Phase.playing, forcedDealerPick := false }
      let s2 := { s1 with turn := normalizeTurnMaybe s1 ((s.dealer + 1) % 4) }
      sortHand0 s2 (some suit)

/-- Source `dealerPickupAndDiscard`: push the upcard into the dealer's
hand, remove the first copy of the chosen discard if present
(`findIndex` + `splice`, which is exactly `List.erase`), then enter play.
Note the source performs no validation at all here. -/
def dealerPickupAndDiscardA (s : GameState) (discardCard : Card) : GameState :=
  match s.upcard with
  | none => s
  | some u =>
    let d := s.dealer
    let picked := s.hands.getD d [] ++ [u]
    let s1 := { s with
      hands := s.hands.set d (picked.erase discardCard),
      pendingDealerPickup := false,
      turn := normalizeTurnMaybe s ((s.dealer + 1) % 4),
      phase := Phase.playing,
      bidLog := s.bidLog ++ [LogEntry.pickedUp d] }
    sortHand0 s1 s.trump

/-- The discard-selection scan of the bot dealer (lines of `botAct` that
handle `dealer_discard`): minimise `dscore`, where trump cards are
penalised by +50; `worst` starts at JavaScript `Infinity`, modelled as
`none`. -/
def botDiscardLoop (t : Suit) : List Card → Card → Option Int → Card
  | [], pick, _ => pick
  | c :: rest, pick, worst =>
    let val : Int := cardPower c (some t) (some t)
    let dscore := if effectiveSuit c (some t) = t then val + 50 else val
    let better := match worst with
      | none => true
      | some w => dscore < w
    if better then botDiscardLoop t rest c (some dscore)
    else botDiscardLoop t rest pick worst

/-- The bot dealer's pickup-and-discard branch of `botAct` (it removes all
copies of the chosen discard with `filter`, and does not re-sort the human
hand). -/
def botDealerDiscardA (s : GameState) : GameState :=
  match s.upcard with
  | none => s
  | some u =>
    let t := u.s
    let hand := s.hands.getD s.dealer []
    let tempHand := hand ++ [u]
    let discard := botDiscardLoop t tempHand (tempHand.headD default) none
    { s with hands := s.hands.set s.dealer (tempHand.filter fun c => ¬(c = discard)),
             pendingDealerPickup := false, phase := Phase.playing,
             turn := normalizeTurnMaybe s ((s.dealer + 1) % 4),
             bidLog := s.bidLog ++ [LogEntry.pickedUp s.dealer] }

/-- Source `playCard` (lines 571–595).  The scheduled
`resolveTrickIfComplete` call is modelled as the separate step
`resolveTrickA`; `playCard` itself only validates, removes the card and
appends it to the trick. -/
def playCardA (s : GameState) (playerIndex : Nat) (card : Card) : GameState :=
  if s.phase ≠ Phase.playing then s
  else if playerIndex ≠ s.turn then s
  else if inactivePlayer s = some playerIndex then s
  else
    let hand := s.hands.getD playerIndex []
    let legal := legalCards hand s.trump (leadSuitOf s)
    if card ∈ legal then
      let s1 := { s with
        hands := s.hands.set playerIndex (hand.filter fun c => ¬(c = card)),
        trick := s.trick ++ [⟨playerIndex, card⟩] }
      if s1.trick.length < targetCount s then { s1 with turn := nextTurnIndex s s.turn }
      else s1
    else s

/-- The best-card scan of `resolveTrickIfComplete`: first index of maximal
power, starting from `bestPow = -1`. -/
def bestLoop (trump lead : Option Suit) : List TrickEntry → Nat → Nat → Int → Nat
  | [], _, bi, _ => bi
  | e :: rest, i, bi, bp =>
    let pow : Int := cardPower e.card trump lead
    if bp < pow then bestLoop trump lead rest (i + 1) i pow
    else bestLoop trump lead rest (i + 1) bi bp

/-- Source `resolveTrickIfComplete` together with the state updates of
`finishTrickAndAdvance` (whose presentation delay and `pauseTrick` flag
are collapsed into one atomic step).  `makerTeam` is always set while a
trick can complete; the `getD 0` default mirrors that. -/
def resolveTrickA (s : GameState) : GameState :=
  if s.trick.length < targetCount s then s
  else
    let lead := effectiveSuit (s.trick.getD 0 default).card s.trump
    let bestIdx := bestLoop s.trump (some lead) s.trick 0 0 (-1)
    let winner := (s.trick.getD bestIdx default).player
    let newTWTeam :=
      s.tricksWonTeam.set (teamOf winner) (s.tricksWonTeam.getD (teamOf winner) 0 + 1)
    let newTWPlayer :=
      s.tricksWonPlayer.set winner (s.tricksWonPlayer.getD winner 0 + 1)
    let completedNow := s.tricksCompleted + 1
    let s1 := { s with
      tricksCompleted := completedNow, trick := [],
      turn := normalizeTurnMaybe s winner,
      tricksWonTeam := newTWTeam, tricksWonPlayer := newTWPlayer }
    if completedNow = 5 then
      let mt := s.makerTeam.getD 0
      let defTeam := if mt = 0 then 1 else 0
      let makerTricks := newTWTeam.getD mt 0
      let newScore :=
        if s.alonePlayer.isSome then
          if makerTricks = 5 then s.score.set mt (s.score.getD mt 0 + 4)
          else if 3 ≤ makerTricks then s.score.set mt (s.score.getD mt 0 + 1)
          else s.score.set defTeam (s.score.getD defTeam 0 + 2)
        else
          if makerTricks = 5 then s.score.set mt (s.score.getD mt 0 + 2)
          else if 3 ≤ makerTricks then s.score.set mt (s.score.getD mt 0 + 1)
          else s.score.set defTeam (s.score.getD defTeam 0 + 2)
      { s1 with score := newScore, phase := Phase.hand_over }
    else s1

/-- The skip-inactive-seat repair step at the top of `botAct`. -/
def skipInactiveA (s : GameState) : GameState :=
  { s with turn := nextTurnIndex s s.turn }

/-- The initial React state of the component. -/
def initState : GameState :=
  { phase := Phase.idle
    hands := [[], [], [], []]
    upcard := none
    dealer := 0
    turn := 0
    trump := none
    maker := none
    makerTeam := none
    alonePlayer := none
    trick := []
    tricksWonTeam := [0, 0]
    tricksWonPlayer := [0, 0, 0, 0]
    tricksCompleted := 0
    score := [0, 0]
    bidLog := []
    pendingDealerPickup := false
    forcedDealerPick := false }

/-- One transition of the running system.  Unguarded constructors
correspond to operations whose only protection in the source is their own
internal validation; guarded constructors carry the enabling conditions of
their callers (the UI buttons and the bot driver of the source):
`startDeal` is the idle-phase deal button, `nextHand` the hand-over
next-hand button (hidden once the game is over), `dealerDiscard` the
discard strip shown only during a pending dealer pickup, `botDiscard` the
bot dealer's pickup branch, and `skipInactive` the bot driver's repair
step, which the driver only runs outside `idle`/`hand_over`.  A `playCard`
step happens only while the current trick is below its required size: once
the trick is full, the scheduled `resolveTrickA` fires (and `pauseTrick`
then blocks play) before another card can be accepted. -/
inductive Step : GameState → GameState → Prop where
  | startDeal (s : GameState) (deck : List Card) :
      s.phase = Phase.idle → Step s (startNewHand s deck s.dealer)
  | nextHand (s : GameState) (deck : List Card) :
      s.phase = Phase.hand_over → ¬ gameOver s → Step s (nextDealerAndHand s deck)
  | doPass (s : GameState) : Step s (passA s)
  | doOrderUp (s : GameState) (goAlone : Bool) : Step s (orderUpA s goAlone)
  | doCallSuit (s : GameState) (suit : Suit) (goAlone : Bool) :
      Step s (callSuitA s suit goAlone)
  | dealerDiscard (s : GameState) (c : Card) :
      s.phase = Phase.dealer_discard → s.pendingDealerPickup = true →
      Step s (dealerPickupAndDiscardA s c)
  | botDiscard (s : GameState) :
      s.phase = Phase.dealer_discard → s.pendingDealerPickup = true →
      s.turn = s.dealer → Step s (botDealerDiscardA s)
  | skipInactive (s : GameState) :
      s.phase ≠ Phase.idle → s.phase ≠ Phase.hand_over →
      inactivePlayer s = some s.turn → Step s (skipInactiveA s)
  | doPlayCard (s : GameState) (p : Nat) (c : Card) :
      s.trick.length < targetCount s → Step s (playCardA s p c)
  | doResolveTrick (s : GameState) : Step s (resolveTrickA s)

/-- A state of the running system: reachable from the initial React state. -/
def Reachable (s : GameState) : Prop :=
  Relation.ReflTransGen Step initState s

/-- Actions: a syntactic mirror of the `Step` constructors, used to build
concrete executions by computation. -/
inductive Act where
  | deal (deck : List Card)
  | next (deck : List Card)
  | aPass
  | aOrderUp (goAlone : Bool)
  | aCallSuit (suit : Suit) (goAlone : Bool)
  | aDiscard (c : Card)
  | aBotDiscard
  | aSkip
  | aPlay (p : Nat) (c : Card)
  | aResolve

/-- The enabling condition of an action, as a boolean. -/
def actGuard (s : GameState) : Act → Bool
  | Act.deal _ => s.phase = Phase.idle
  | Act.next _ => s.phase = Phase.hand_over && !(decide (gameOver s))
  | Act.aPass => true
  | Act.aOrderUp _ => true
  | Act.aCallSuit _ _ => true
  | Act.aDiscard _ => s.phase = Phase.dealer_discard && s.pendingDealerPickup
  | Act.aBotDiscard =>
      s.phase = Phase.dealer_discard && s.pendingDealerPickup && s.turn = s.dealer
  | Act.aSkip =>
      s.phase ≠ Phase.idle && s.phase ≠ Phase.hand_over &&
      inactivePlayer s = some s.turn
  | Act.aPlay _ _ => s.trick.length < targetCount s
  | Act.aResolve => true

/-- The effect of an action. -/
def actApply (s : GameState) : Act → GameState
  | Act.deal deck => startNewHand s deck s.dealer
  | Act.next deck => nextDealerAndHand s deck
  | Act.aPass => passA s
  | Act.aOrderUp b => orderUpA s b
  | Act.aCallSuit suit b => callSuitA s suit b
  | Act.aDiscard c => dealerPickupAndDiscardA s c
  | Act.aBotDiscard => botDealerDiscardA s
  | Act.aSkip => skipInactiveA s
  | Act.aPlay p c => playCardA s p c
  | Act.aResolve => resolveTrickA s

/-- Run a list of actions. -/
def runA (s : GameState) : List Act → GameState
  | [] => s
  | a :: rest => runA (actApply s a) rest

/-- All guards hold along a run. -/
def runOK (s : GameState) : List Act → Bool
  | [] => true
  | a :: rest => actGuard s a && runOK (actApply s a) rest

/-- The inductive invariant of the running system, strong enough to carry
the lone-seat and termination properties through every step. -/
def EngineInv (s : GameState) : Prop :=
  s.dealer < 4 ∧ s.turn < 4 ∧
  (s.phase ≠ Phase.playing → s.trick = []) ∧
  (s.forcedDealerPick = true → s.phase = Phase.bid2) ∧
  s.trick.length ≤ targetCount s ∧
  (∀ e ∈ s.trick, e.player < 4) ∧
  (∀ a, s.alonePlayer = some a → a < 4 ∧
    (s.phase = Phase.playing → s.turn ≠ partnerOf a) ∧
    ∀ e ∈ s.trick, e.player ≠ partnerOf a)

/-- The `cardPower` formula exactly as the specification words it (used to
check claim C2 against the implementation): the +50 bonus is granted only
to a card that "merely follows the lead without being trump". -/
def cardPowerSpec (c : Card) (t : Suit) (leadSuit : Option Suit) : Nat :=
  if isRightBower c t then 200
  else if isLeftBower c t then 190
  else
    let eff := effectiveSuit c (some t)
    match leadSuit with
    | some l =>
      if eff ≠ l ∧ eff ≠ t then 0
      else rankOrder c.r + (if eff = t then 100 else 0) +
        (if eff = l ∧ eff ≠ t then 50 else 0)
    | none => rankOrder c.r + (if eff = t then 100 else 0)

/-- The `cardPower` formula amended as the implementation computes it: in
the nonzero branch every non-trump card gets the +50, also when no lead
suit is given. -/
def cardPowerSpecAmended (c : Card) (t : Suit) (leadSuit : Option Suit) : Nat :=
  if isRightBower c t then 200
  else if isLeftBower c t then 190
  else
    let eff := effectiveSuit c (some t)
    match leadSuit with
    | some l =>
      if eff ≠ l ∧ eff ≠ t then 0
      else (if eff = t then 100 else 50) + rankOrder c.r
    | none => (if eff = t then 100 else 50) + rankOrder c.r

/-- Dealing exactly as the specification words it: round robin starting
from the seat left of the dealer (the implementation's loop instead always
starts at seat 0). -/
def dealHandFromLeftOfDealer (deck : List Card) (dealer : Nat) :
    List (List Card) × Option Card :=
  let r := dealLoop [[], [], [], []] deck ((dealer + 1) % 4) 20
  (r.1, r.2.getLast?)

/-- A concrete mid-play state used to instantiate the `playCard` frame theorem. -/
def ws10 : GameState :=
  { phase := Phase.playing
    hands := [[⟨Suit.spade, Rank.ace⟩, ⟨Suit.heart, Rank.n9⟩],
      [⟨Suit.diamond, Rank.king⟩], [⟨Suit.club, Rank.queen⟩], [⟨Suit.spade, Rank.n10⟩]]
    upcard := some ⟨Suit.club, Rank.n9⟩
    dealer := 0
    turn := 0
    trump := some Suit.spade
    maker := some 0
    makerTeam := some 0
    alonePlayer := none
    trick := []
    tricksWonTeam := [0, 0]
    tricksWonPlayer := [0, 0, 0, 0]
    tricksCompleted := 0
    score := [0, 0]
    bidLog := []
    pendingDealerPickup := false
    forcedDealerPick := false }

/-- A concrete state at the start of the 5th trick resolution: the maker
team (team 0) has won the first 4 tricks and wins the last one. -/
def ws4 : GameState :=
  { phase := Phase.playing
    hands := [[], [], [], []]
    upcard := none
    dealer := 0
    turn := 3
    trump := some Suit.spade
    maker := some 0
    makerTeam := some 0
    alonePlayer := none
    trick := [⟨0, ⟨Suit.spade, Rank.ace⟩⟩, ⟨1, ⟨Suit.heart, Rank.n9⟩⟩,
      ⟨2, ⟨Suit.diamond, Rank.n9⟩⟩, ⟨3, ⟨Suit.club, Rank.n9⟩⟩]
    tricksWonTeam := [4, 0]
    tricksWonPlayer := [4, 0, 0, 0]
    tricksCompleted := 4
    score := [0, 0]
    bidLog := []
    pendingDealerPickup := false
    forcedDealerPick := false }

/-- A concrete state at the start of round-2 bidding (dealer 0, turn 1). -/
def cs5 : GameState :=
  { phase := Phase.bid2
    hands := [[], [], [], []]
    upcard := some ⟨Suit.spade, Rank.n9⟩
    dealer := 0
    turn := 1
    trump := none
    maker := none
    makerTeam := none
    alonePlayer := none
    trick := []
    tricksWonTeam := [0, 0]
    tricksWonPlayer := [0, 0, 0, 0]
    tricksCompleted := 0
    score := [0, 0]
    bidLog := []
    pendingDealerPickup := false
    forcedDealerPick := false }

/-- A concrete `dealer_discard` state: the dealer (seat 0) holds five
cards and a pickup is pending. -/
def cs7 : GameState :=
  { phase := Phase.dealer_discard
    hands := [[⟨Suit.spade, Rank.ace⟩, ⟨Suit.spade, Rank.king⟩, ⟨Suit.spade, Rank.queen⟩,
        ⟨Suit.heart, Rank.n9⟩, ⟨Suit.heart, Rank.n10⟩],
      [⟨Suit.diamond, Rank.king⟩], [⟨Suit.club, Rank.queen⟩], [⟨Suit.spade, Rank.n10⟩]]
    upcard := some ⟨Suit.spade, Rank.n9⟩
    dealer := 0
    turn := 0
    trump := some Suit.spade
    maker := some 1
    makerTeam := some 1
    alonePlayer := none
    trick := []
    tricksWonTeam := [0, 0]
    tricksWonPlayer := [0, 0, 0, 0]
    tricksCompleted := 0
    score := [0, 0]
    bidLog := []
    pendingDealerPickup := true
    forcedDealerPick := false }

/-- The actions reaching a lone-hand playing state: deal, seat 1 orders up
alone, the dealer discards. -/
def acts6 : List Act :=
  [Act.deal makeDeck, Act.aOrderUp true, Act.aDiscard ⟨Suit.spade, Rank.queen⟩]

/-- A fully concrete 24-card deck whose deal gives seat 0 the five top
spades (both bowers, A, K, Q), seat 1 all hearts below the ace, seat 2 all
diamonds below the ace, and seat 3 the clubs below the jack, with the 9 of
spades as upcard. -/
def deckD : List Card :=
  [⟨Suit.spade, Rank.n10⟩, ⟨Suit.heart, Rank.ace⟩, ⟨Suit.diamond, Rank.ace⟩,
   ⟨Suit.spade, Rank.n9⟩, ⟨Suit.club, Rank.n9⟩, ⟨Suit.diamond, Rank.n9⟩,
   ⟨Suit.heart, Rank.n9⟩, ⟨Suit.spade, Rank.queen⟩, ⟨Suit.club, Rank.n10⟩,
   ⟨Suit.diamond, Rank.n10⟩, ⟨Suit.heart, Rank.n10⟩, ⟨Suit.spade, Rank.king⟩,
   ⟨Suit.club, Rank.queen⟩, ⟨Suit.diamond, Rank.jack⟩, ⟨Suit.heart, Rank.jack⟩,
   ⟨Suit.spade, Rank.ace⟩, ⟨Suit.club, Rank.king⟩, ⟨Suit.diamond, Rank.queen⟩,
   ⟨Suit.heart, Rank.queen⟩, ⟨Suit.club, Rank.jack⟩, ⟨Suit.club, Rank.ace⟩,
   ⟨Suit.diamond, Rank.king⟩, ⟨Suit.heart, Rank.king⟩, ⟨Suit.spade, Rank.jack⟩]

/-- Card abbreviations for the runs over `deckD`. -/
def jS : Card := ⟨Suit.spade, Rank.jack⟩

def jC : Card := ⟨Suit.club, Rank.jack⟩

def aS : Card := ⟨Suit.spade, Rank.ace⟩

def kS : Card := ⟨Suit.spade, Rank.king⟩

def qS : Card := ⟨Suit.spade, Rank.queen⟩

def kH : Card := ⟨Suit.heart, Rank.king⟩

def qH : Card := ⟨Suit.heart, Rank.queen⟩

def jH : Card := ⟨Suit.heart, Rank.jack⟩

def tH : Card := ⟨Suit.heart, Rank.n10⟩

def nH : Card := ⟨Suit.heart, Rank.n9⟩

def aC : Card := ⟨Suit.club, Rank.ace⟩

def kC : Card := ⟨Suit.club, Rank.king⟩

def qC : Card := ⟨Suit.club, Rank.queen⟩

def tC : Card := ⟨Suit.club, Rank.n10⟩

def nC : Card := ⟨Suit.club, Rank.n9⟩

def nS : Card := ⟨Suit.spade, Rank.n9⟩

/-- A full game over `deckD`: three hands in which seat 0 orders up spades
alone and sweeps all five tricks (+4 each hand), ending at score 12 to 0. -/
def acts9 : List Act :=
  [Act.deal deckD, Act.aPass, Act.aPass, Act.aPass, Act.aOrderUp true, Act.aDiscard nS,
   Act.aPlay 1 kH, Act.aPlay 3 aC, Act.aPlay 0 jS, Act.aResolve,
   Act.aPlay 0 jC, Act.aPlay 1 qH, Act.aPlay 3 kC, Act.aResolve,
   Act.aPlay 0 aS, Act.aPlay 1 jH, Act.aPlay 3 qC, Act.aResolve,
   Act.aPlay 0 kS, Act.aPlay 1 tH, Act.aPlay 3 tC, Act.aResolve,
   Act.aPlay 0 qS, Act.aPlay 1 nH, Act.aPlay 3 nC, Act.aResolve,
   Act.next deckD, Act.aPass, Act.aPass, Act.aOrderUp true, Act.aDiscard nS,
   Act.aPlay 3 aC, Act.aPlay 0 jS, Act.aPlay 1 kH, Act.aResolve,
   Act.aPlay 0 jC, Act.aPlay 1 qH, Act.aPlay 3 kC, Act.aResolve,
   Act.aPlay 0 aS, Act.aPlay 1 jH, Act.aPlay 3 qC, Act.aResolve,
   Act.aPlay 0 kS, Act.aPlay 1 tH, Act.aPlay 3 tC, Act.aResolve,
   Act.aPlay 0 qS, Act.aPlay 1 nH, Act.aPlay 3 nC, Act.aResolve,
   Act.next deckD, Act.aPass, Act.aOrderUp true,
   Act.aPlay 3 aC, Act.aPlay 0 jS, Act.aPlay 1 kH, Act.aResolve,
   Act.aPlay 0 jC, Act.aPlay 1 qH, Act.aPlay 3 kC, Act.aResolve,
   Act.aPlay 0 aS, Act.aPlay 1 jH, Act.aPlay 3 qC, Act.aResolve,
   Act.aPlay 0 kS, Act.aPlay 1 tH, Act.aPlay 3 tC, Act.aResolve,
   Act.aPlay 0 qS, Act.aPlay 1 nH, Act.aPlay 3 nC, Act.aResolve]

theorem cons_set_perm {α : Type _} :
    ∀ (xs : List α) (j : Nat) (b x : α), xs.get? j = some b →
      (b :: xs.set j x).Perm (x :: xs)
  | [], j, b, x, h => by simp at h
  | y :: t, 0, b, x, h => by
    simp at h
    subst h
    exact List.Perm.swap x y t
  | y :: t, j + 1, b, x, h => by
    have ih := cons_set_perm t j b x (by simpa using h)
    show (b :: y :: t.set j x).Perm (x :: y :: t)
    exact ((List.Perm.swap y b _).trans (ih.cons y)).trans (List.Perm.swap x y t)

theorem swapAt_perm {α : Type _} (l : List α) (i j : Nat) : (swapAt l i j).Perm l := by
  unfold swapAt
  cases hi : l.get? i with
  | none => simp
  | some a =>
    cases hj : l.get? j with
    | none => simp
    | some b =>
      simp only
      have hj' : (l.set i b).get? j = some b := by
        by_cases hij : i = j
        · subst hij
          have : i < l.length := by
            have := List.get?_eq_some.mp hi
            exact this.1
          simp [List.get?_eq_getElem?, List.getElem?_set_self this]
        · rw [List.get?_eq_getElem?, List.getElem?_set_ne hij, ← List.get?_eq_getElem?, hj]
      have h1 := cons_set_perm (l.set i b) j b a hj'
      have h2 := cons_set_perm l i a b hi
      exact (h1.trans h2).cons_inv

theorem shuffleAux_perm {α : Type _} (choices : Nat → Nat) :
    ∀ (n : Nat) (a : List α), (shuffleAux choices a n).Perm a
  | 0, a => List.Perm.refl a
  | n + 1, a =>
    (shuffleAux_perm choices n _).trans (swapAt_perm a (n + 1) (choices (n + 1) % (n + 2)))

theorem shuffle_perm {α : Type _} (choices : Nat → Nat) (arr : List α) :
    (shuffle choices arr).Perm arr :=
  shuffleAux_perm choices _ arr

theorem actStep (s : GameState) (a : Act) (h : actGuard s a = true) :
    Step s (actApply s a) := by
  cases a with
  | deal deck =>
    simp only [actGuard, decide_eq_true_eq] at h
    exact Step.startDeal s deck h
  | next deck =>
    simp only [actGuard, Bool.and_eq_true, Bool.not_eq_true', decide_eq_true_eq,
      decide_eq_false_iff_not] at h
    exact Step.nextHand s deck h.1 h.2
  | aPass => exact Step.doPass s
  | aOrderUp b => exact Step.doOrderUp s b
  | aCallSuit su b => exact Step.doCallSuit s su b
  | aDiscard c =>
    simp only [actGuard, Bool.and_eq_true, decide_eq_true_eq] at h
    exact Step.dealerDiscard s c h.1 h.2
  | aBotDiscard =>
    simp only [actGuard, Bool.and_eq_true, decide_eq_true_eq] at h
    exact Step.botDiscard s h.1.1 h.1.2 h.2
  | aSkip =>
    simp only [actGuard, Bool.and_eq_true, bne_iff_ne, ne_eq, decide_eq_true_eq] at h
    exact Step.skipInactive s h.1.1 h.1.2 h.2
  | aPlay p c =>
    simp only [actGuard, decide_eq_true_eq] at h
    exact Step.doPlayCard s p c h
  | aResolve => exact Step.doResolveTrick s

theorem runSound :
    ∀ (l : List Act) (s : GameState), runOK s l = true →
      Relation.ReflTransGen Step s (runA s l)
  | [], s, _ => Relation.ReflTransGen.refl
  | a :: rest, s, h => by
    rw [runOK, Bool.and_eq_true] at h
    exact Relation.ReflTransGen.head (actStep s a h.1) (runSound rest (actApply s a) h.2)

theorem nextTurnIndex_lt (s : GameState) (cur : Nat) : nextTurnIndex s cur < 4 := by
  unfold nextTurnIndex
  cases inactivePlayer s with
  | none => simp; omega
  | some ip =>
    simp only
    split
    · omega
    · omega

theorem nextTurnIndex_ne_inactive (s : GameState) (cur ip : Nat)
    (h : inactivePlayer s = some ip) (hip : ip < 4) : nextTurnIndex s cur ≠ ip := by
  unfold nextTurnIndex
  rw [h]
  simp only
  split
  · next heq => omega
  · next hne => exact hne

theorem normalizeTurnMaybe_lt (s : GameState) (t : Nat) (ht : t < 4) :
    normalizeTurnMaybe s t < 4 := by
  unfold normalizeTurnMaybe
  cases inactivePlayer s with
  | none => exact ht
  | some ip =>
    simp only
    split
    · exact nextTurnIndex_lt s t
    · exact ht

theorem normalizeTurnMaybe_ne_inactive (s : GameState) (t ip : Nat)
    (h : inactivePlayer s = some ip) (hip : ip < 4) : normalizeTurnMaybe s t ≠ ip := by
  unfold normalizeTurnMaybe
  rw [h]
  simp only
  split
  · exact nextTurnIndex_ne_inactive s t ip h hip
  · next hne => exact hne

theorem inv_initState : EngineInv initState := by
  refine ⟨by decide, by decide, fun _ => rfl, by simp [initState], by decide, ?_, ?_⟩
  · intro e he
    simp [initState] at he
  · intro a ha
    simp [initState] at ha

theorem inv_pass (s : GameState) (hs : EngineInv s) : EngineInv (passA s) := by
  obtain ⟨hd, ht, htk, hf, htl, hpl, hal⟩ := hs
  unfold passA
  try dsimp only
  split
  · exact ⟨hd, ht, htk, hf, htl, hpl, hal⟩
  · next hguard =>
    rw [not_and_or, not_ne_iff, not_ne_iff] at hguard
    have htk0 : s.trick = [] := by
      cases hguard with
      | inl h => exact htk (by rw [h]; exact fun hh => nomatch hh)
      | inr h => exact htk (by rw [h]; exact fun hh => nomatch hh)
    split
    · next hb1 =>
      split
      · exact ⟨hd, by show (s.dealer + 1) % 4 < 4; omega, fun _ => htk0, fun _ => rfl, htl,
          hpl, fun a ha => ⟨(hal a ha).1, by intro hp; simp at hp, (hal a ha).2.2⟩⟩
      · exact ⟨hd, by show (s.turn + 1) % 4 < 4; omega, fun _ => htk0, hf, htl, hpl,
          fun a ha => ⟨(hal a ha).1, by intro hp; simp [hb1] at hp, (hal a ha).2.2⟩⟩
    · next hb1 =>
      have hb2 : s.phase = Phase.bid2 := by
        cases hguard with
        | inl h => exact absurd h hb1
        | inr h => exact h
      split
      · exact ⟨hd, hd, fun _ => htk0, fun _ => hb2, htl, hpl,
          fun a ha => ⟨(hal a ha).1, by intro hp; simp [hb2] at hp, (hal a ha).2.2⟩⟩
      · exact ⟨hd, by show (s.turn + 1) % 4 < 4; omega, fun _ => htk0, fun _ => hb2, htl, hpl,
          fun a ha => ⟨(hal a ha).1, by intro hp; simp [hb2] at hp, (hal a ha).2.2⟩⟩

theorem partnerOf_lt (p : Nat) : partnerOf p < 4 := by
  unfold partnerOf; omega

theorem mod4_lt (n : Nat) : n % 4 < 4 := Nat.mod_lt _ (by norm_num)

theorem inv_startNewHand (s : GameState) (deck : List Card) (nd : Nat)
    (hd : s.dealer < 4) : EngineInv (startNewHand s deck nd) := by
  unfold startNewHand
  refine ⟨hd, by show (nd + 1) % 4 < 4; omega, fun _ => rfl, by intro hff; simp at hff,
    Nat.zero_le _, ?_, ?_⟩
  · intro e he
    simp at he
  · intro a ha
    simp at ha

theorem inv_orderUp (s : GameState) (goAlone : Bool) (hs : EngineInv s) :
    EngineInv (orderUpA s goAlone) := by
  obtain ⟨hd, ht, htk, hf, htl, hpl, hal⟩ := hs
  unfold orderUpA
  try dsimp only
  split
  · exact ⟨hd, ht, htk, hf, htl, hpl, hal⟩
  · next hguard =>
    rw [not_ne_iff] at hguard
    have htk0 : s.trick = [] := htk (by rw [hguard]; exact fun hh => nomatch hh)
    split
    · exact ⟨hd, ht, htk, hf, htl, hpl, hal⟩
    · next u hu =>
      rw [htk0]
      unfold sortHand0
      try dsimp only
      split
      · next hsit =>
        rw [Bool.and_eq_true, decide_eq_true_eq] at hsit
        obtain ⟨hgo, hpd⟩ := hsit
        rw [hgo]
        refine ⟨hd, ?_, fun _ => rfl,
          by intro hff; simp at hff, Nat.zero_le _, by intro e he; simp at he, ?_⟩
        · dsimp only
          exact normalizeTurnMaybe_lt _ _ (mod4_lt _)
        · intro a ha
          simp at ha
          subst ha
          refine ⟨ht, ?_, by intro e he; simp at he⟩
          intro _
          dsimp only
          exact normalizeTurnMaybe_ne_inactive _ _ _ (by simp [inactivePlayer]) (partnerOf_lt _)
      · refine ⟨hd, hd, fun _ => rfl, ?_, Nat.zero_le _, by intro e he; simp at he, ?_⟩
        · intro hff
          have h2 := hf hff
          rw [hguard] at h2
          exact nomatch h2
        · intro a ha
          refine ⟨?_, by intro hp; simp at hp, by intro e he; simp at he⟩
          rcases Bool.eq_false_or_eq_true goAlone with hgo | hgo <;> rw [hgo] at ha <;>
            simp at ha
          omega

theorem inv_callSuit (s : GameState) (suit : Suit) (goAlone : Bool) (hs : EngineInv s) :
    EngineInv (callSuitA s suit goAlone) := by
  obtain ⟨hd, ht, htk, hf, htl, hpl, hal⟩ := hs
  unfold callSuitA
  try dsimp only
  split
  · exact ⟨hd, ht, htk, hf, htl, hpl, hal⟩
  · next hguard =>
    rw [not_and_or, not_ne_iff] at hguard
    have hb2 : s.phase = Phase.bid2 := by
      cases hguard with
      | inl h => exact h
      | inr h =>
        exact hf (by revert h; cases s.forcedDealerPick <;> simp)
    have htk0 : s.trick = [] := htk (by rw [hb2]; exact fun hh => nomatch hh)
    split
    · exact ⟨hd, ht, htk, hf, htl, hpl, hal⟩
    · next u hu =>
      split
      · exact ⟨hd, ht, htk, hf, htl, hpl, hal⟩
      · rw [htk0]
        unfold sortHand0
        try dsimp only
        refine ⟨hd, ?_, fun _ => rfl,
          by intro hff; simp at hff, Nat.zero_le _, by intro e he; simp at he, ?_⟩
        · dsimp only
          exact normalizeTurnMaybe_lt _ _ (mod4_lt _)
        · intro a ha
          rcases Bool.eq_false_or_eq_true goAlone with hgo | hgo <;> rw [hgo] at ha <;>
            simp at ha
          subst ha
          refine ⟨ht, ?_, by intro e he; simp at he⟩
          intro _
          dsimp only
          exact normalizeTurnMaybe_ne_inactive _ _ _ (by simp [inactivePlayer, hgo]) (partnerOf_lt _)

theorem inv_dealerDiscard (s : GameState) (c : Card)
    (hph : s.phase = Phase.dealer_discard) (hs : EngineInv s) :
    EngineInv (dealerPickupAndDiscardA s c) := by
  obtain ⟨hd, ht, htk, hf, htl, hpl, hal⟩ := hs
  have htk0 : s.trick = [] := htk (by rw [hph]; exact fun hh => nomatch hh)
  unfold dealerPickupAndDiscardA
  split
  · exact ⟨hd, ht, htk, hf, htl, hpl, hal⟩
  · next u hu =>
    rw [htk0]
    unfold sortHand0
    try dsimp only
    refine ⟨hd, ?_, fun _ => rfl, ?_, Nat.zero_le _, by intro e he; simp at he, ?_⟩
    · dsimp only
      exact normalizeTurnMaybe_lt _ _ (mod4_lt _)
    · intro hff
      have h2 := hf hff
      rw [hph] at h2
      exact nomatch h2
    · intro a ha
      refine ⟨(hal a ha).1, ?_, by intro e he; simp at he⟩
      intro _
      dsimp only
      exact normalizeTurnMaybe_ne_inactive _ _ _ (by rw [inactivePlayer, ha]; rfl)
        (partnerOf_lt _)

theorem inv_botDiscard (s : GameState)
    (hph : s.phase = Phase.dealer_discard) (hs : EngineInv s) :
    EngineInv (botDealerDiscardA s) := by
  obtain ⟨hd, ht, htk, hf, htl, hpl, hal⟩ := hs
  have htk0 : s.trick = [] := htk (by rw [hph]; exact fun hh => nomatch hh)
  unfold botDealerDiscardA
  split
  · exact ⟨hd, ht, htk, hf, htl, hpl, hal⟩
  · next u hu =>
    rw [htk0]
    try dsimp only
    refine ⟨hd, ?_, fun _ => rfl, ?_, Nat.zero_le _, by intro e he; simp at he, ?_⟩
    · dsimp only
      exact normalizeTurnMaybe_lt _ _ (mod4_lt _)
    · intro hff
      have h2 := hf hff
      rw [hph] at h2
      exact nomatch h2
    · intro a ha
      refine ⟨(hal a ha).1, ?_, by intro e he; simp at he⟩
      intro _
      dsimp only
      exact normalizeTurnMaybe_ne_inactive _ _ _ (by rw [inactivePlayer, ha]; rfl)
        (partnerOf_lt _)

theorem inv_skip (s : GameState) (hs : EngineInv s) : EngineInv (skipInactiveA s) := by
  obtain ⟨hd, ht, htk, hf, htl, hpl, hal⟩ := hs
  unfold skipInactiveA
  refine ⟨hd, ?_, htk, hf, htl, hpl, ?_⟩
  · dsimp only
    exact nextTurnIndex_lt s s.turn
  · intro a ha
    refine ⟨(hal a ha).1, ?_, (hal a ha).2.2⟩
    intro _
    dsimp only
    exact nextTurnIndex_ne_inactive _ _ _ (by rw [inactivePlayer, ha]; rfl) (partnerOf_lt _)

theorem inv_playCard (s : GameState) (p : Nat) (c : Card)
    (htl0 : s.trick.length < targetCount s) (hs : EngineInv s) :
    EngineInv (playCardA s p c) := by
  obtain ⟨hd, ht, htk, hf, htl, hpl, hal⟩ := hs
  unfold playCardA
  try dsimp only
  split
  · exact ⟨hd, ht, htk, hf, htl, hpl, hal⟩
  · next hP =>
    rw [not_ne_iff] at hP
    split
    · exact ⟨hd, ht, htk, hf, htl, hpl, hal⟩
    · next hpt =>
      rw [not_ne_iff] at hpt
      split
      · exact ⟨hd, ht, htk, hf, htl, hpl, hal⟩
      · next hwin =>
        split
        · next hleg =>
          have hlen : (s.trick ++ [(⟨p, c⟩ : TrickEntry)]).length ≤ targetCount s := by
            rw [List.length_append]
            simp only [List.length_cons, List.length_nil]
            omega
          have hplayers : ∀ e ∈ s.trick ++ [(⟨p, c⟩ : TrickEntry)], e.player < 4 := by
            intro e he
            rcases List.mem_append.mp he with h | h
            · exact hpl e h
            · simp at h
              subst h
              show p < 4
              rw [hpt]
              exact ht
          have haln : ∀ a, s.alonePlayer = some a →
              ∀ e ∈ s.trick ++ [(⟨p, c⟩ : TrickEntry)], e.player ≠ partnerOf a := by
            intro a ha e he
            rcases List.mem_append.mp he with h | h
            · exact (hal a ha).2.2 e h
            · simp at h
              subst h
              show p ≠ partnerOf a
              intro heq
              exact hwin (by simp [inactivePlayer, ha, heq])
          split
          · refine ⟨hd, ?_, fun hnp => absurd hP hnp, hf, hlen, hplayers, ?_⟩
            · dsimp only
              exact nextTurnIndex_lt s s.turn
            · intro a ha
              refine ⟨(hal a ha).1, ?_, haln a ha⟩
              intro _
              dsimp only
              exact nextTurnIndex_ne_inactive _ _ _ (by rw [inactivePlayer, ha]; rfl)
                (partnerOf_lt _)
          · refine ⟨hd, ht, fun hnp => absurd hP hnp, hf, hlen, hplayers, ?_⟩
            intro a ha
            exact ⟨(hal a ha).1, fun _ => (hal a ha).2.1 hP, haln a ha⟩
        · exact ⟨hd, ht, htk, hf, htl, hpl, hal⟩

theorem bestLoop_lt_aux (trump lead : Option Suit) :
    ∀ (rest : List TrickEntry) (i bi : Nat) (bp : Int), bi < i →
      bestLoop trump lead rest i bi bp < i + rest.length
  | [], i, bi, bp, h => by simpa using h
  | e :: rest, i, bi, bp, h => by
    simp only [bestLoop]
    split
    · have h2 := bestLoop_lt_aux trump lead rest (i + 1) i
        (cardPower e.card trump lead : Int) (Nat.lt_succ_self i)
      simp only [List.length_cons]
      omega
    · have h2 := bestLoop_lt_aux trump lead rest (i + 1) bi bp (by omega)
      simp only [List.length_cons]
      omega

theorem bestLoop_head_lt (trump lead : Option Suit) (l : List TrickEntry) (h : l ≠ []) :
    bestLoop trump lead l 0 0 (-1) < l.length := by
  cases l with
  | nil => exact absurd rfl h
  | cons e rest =>
    simp only [bestLoop]
    split
    · have h2 := bestLoop_lt_aux trump lead rest 1 0
        (cardPower e.card trump lead : Int) Nat.one_pos
      simp only [Nat.zero_add, List.length_cons]
      omega
    · next hneg => exact absurd (by omega) hneg

theorem inv_resolve (s : GameState) (hs : EngineInv s) : EngineInv (resolveTrickA s) := by
  obtain ⟨hd, ht, htk, hf, htl, hpl, hal⟩ := hs
  unfold resolveTrickA
  try dsimp only
  split
  · exact ⟨hd, ht, htk, hf, htl, hpl, hal⟩
  · next hfull =>
    rw [not_lt] at hfull
    have htc3 : 3 ≤ targetCount s := by
      unfold targetCount
      cases inactivePlayer s <;> simp
    have hne : s.trick ≠ [] := by
      intro h0
      rw [h0] at hfull
      simp at hfull
      omega
    have hP : s.phase = Phase.playing := by
      by_contra hq
      exact hne (htk hq)
    have hbi : bestLoop s.trump (some (effectiveSuit (s.trick.getD 0 default).card s.trump))
        s.trick 0 0 (-1) < s.trick.length := bestLoop_head_lt _ _ _ hne
    have hwmem : s.trick.getD (bestLoop s.trump
        (some (effectiveSuit (s.trick.getD 0 default).card s.trump)) s.trick 0 0 (-1))
        default ∈ s.trick := by
      rw [List.getD_eq_getElem _ _ hbi]
      exact List.getElem_mem hbi
    have hwlt := hpl _ hwmem
    split
    · refine ⟨hd, ?_, fun _ => rfl, ?_, Nat.zero_le _, by intro e he; simp at he, ?_⟩
      · dsimp only
        exact normalizeTurnMaybe_lt _ _ hwlt
      · intro hff
        have h2 := hf hff
        rw [hP] at h2
        exact nomatch h2
      · intro a ha
        refine ⟨(hal a ha).1, ?_, by intro e he; simp at he⟩
        intro _
        dsimp only
        exact normalizeTurnMaybe_ne_inactive _ _ _ (by rw [inactivePlayer, ha]; rfl)
          (partnerOf_lt _)
    · refine ⟨hd, ?_, fun _ => rfl, hf, Nat.zero_le _, by intro e he; simp at he, ?_⟩
      · dsimp only
        exact normalizeTurnMaybe_lt _ _ hwlt
      · intro a ha
        refine ⟨(hal a ha).1, ?_, by intro e he; simp at he⟩
        intro _
        dsimp only
        exact normalizeTurnMaybe_ne_inactive _ _ _ (by rw [inactivePlayer, ha]; rfl)
          (partnerOf_lt _)

theorem step_inv {s s2 : GameState} (hs : EngineInv s) (h : Step s s2) : EngineInv s2 := by
  cases h with
  | startDeal deck hph => exact inv_startNewHand s deck s.dealer hs.1
  | nextHand deck hph hg =>
    unfold nextDealerAndHand
    exact inv_startNewHand _ deck _ (mod4_lt _)
  | doPass => exact inv_pass s hs
  | doOrderUp b => exact inv_orderUp s b hs
  | doCallSuit su b => exact inv_callSuit s su b hs
  | dealerDiscard c hph hpd => exact inv_dealerDiscard s c hph hs
  | botDiscard hph hpd htd => exact inv_botDiscard s hph hs
  | skipInactive h1 h2 h3 => exact inv_skip s hs
  | doPlayCard p c hlt => exact inv_playCard s p c hlt hs
  | doResolveTrick => exact inv_resolve s hs

theorem reachable_inv {s : GameState} (h : Reachable s) : EngineInv s := by
  induction h with
  | refl => exact inv_initState
  | tail _ hstep ih => exact step_inv ih hstep

/-- Claim C1 as stated is false: two distinct cards that neither follow the
lead nor are trump both get power 0.  Here, with trump ♠ and lead ♥, the
9♦ and the 9♣ tie at 0. -/
theorem claim1_counterexample :
    (⟨Suit.diamond, Rank.n9⟩ : Card) ≠ ⟨Suit.club, Rank.n9⟩ ∧
    cardPower ⟨Suit.diamond, Rank.n9⟩ (some Suit.spade) (some Suit.heart) =
      cardPower ⟨Suit.club, Rank.n9⟩ (some Suit.spade) (some Suit.heart) := by
  decide

/-- Claim C1, amended: for every trump and lead suit, any two distinct
cards whose powers are nonzero (i.e. cards that can win the trick) receive
different powers; ties occur only at power 0, so the trick winner is still
unique. -/
theorem claim1_main : ∀ (t l : Suit) (c1 c2 : Card), c1 ≠ c2 →
    cardPower c1 (some t) (some l) ≠ 0 → cardPower c2 (some t) (some l) ≠ 0 →
    cardPower c1 (some t) (some l) ≠ cardPower c2 (some t) (some l) := by
  decide

/-- Concrete instance of `claim1_main`: A♠ and K♠ under trump ♠, lead ♠. -/
theorem claim1_witness :
    cardPower ⟨Suit.spade, Rank.ace⟩ (some Suit.spade) (some Suit.spade) ≠
      cardPower ⟨Suit.spade, Rank.king⟩ (some Suit.spade) (some Suit.spade) :=
  claim1_main Suit.spade Suit.spade _ _ (by decide) (by decide) (by decide)

/-- Claim C2 as stated is false at a concrete input: with trump ♠ and no
lead suit, the 9♥ gets power 51 from the code (the +50 applies), while the
spec formula gives 1. -/
theorem claim2_counterexample :
    cardPower ⟨Suit.heart, Rank.n9⟩ (some Suit.spade) none = 51 ∧
    cardPowerSpec ⟨Suit.heart, Rank.n9⟩ Suit.spade none = 1 ∧
    cardPower ⟨Suit.heart, Rank.n9⟩ (some Suit.spade) none ≠
      cardPowerSpec ⟨Suit.heart, Rank.n9⟩ Suit.spade none := by
  decide

/-- Claim C2, amended: `cardPower` (with a trump suit set) agrees with the
spec formula everywhere once the +50 is understood to apply to every
non-trump card of the nonzero branch, including when no lead is given. -/
theorem claim2_main : ∀ (c : Card) (t : Suit) (leadSuit : Option Suit),
    cardPower c (some t) leadSuit = cardPowerSpecAmended c t leadSuit := by
  decide

/-- Claim C3: `legalCards` returns the whole hand when nothing was led;
when some card of the hand follows the led suit by effective suit it
returns exactly that subset; otherwise the whole hand. -/
theorem claim3_main (hand : List Card) (trump : Option Suit) (l : Suit) :
    legalCards hand trump none = hand ∧
    ((∃ c ∈ hand, effectiveSuit c trump = l) →
      legalCards hand trump (some l) = hand.filter fun c => effectiveSuit c trump = l) ∧
    ((∀ c ∈ hand, effectiveSuit c trump ≠ l) → legalCards hand trump (some l) = hand) := by
  refine ⟨rfl, ?_, ?_⟩
  · rintro ⟨c, hc, he⟩
    unfold legalCards
    dsimp only
    rw [if_pos]
    intro h0
    rw [List.length_eq_zero] at h0
    exact List.ne_nil_of_mem (List.mem_filter.mpr ⟨hc, by simpa using he⟩) h0
  · intro hall
    unfold legalCards
    dsimp only
    rw [if_neg]
    rw [not_ne_iff, List.length_eq_zero, List.filter_eq_nil_iff]
    intro a ha
    simpa using hall a ha

/-- Concrete instances of `claim3_main`: a hand that can follow the ♠ lead
is reduced to its spades; a hand that cannot follow a ♣ lead stays whole. -/
theorem claim3_witness :
    legalCards [⟨Suit.spade, Rank.ace⟩, ⟨Suit.heart, Rank.n9⟩] (some Suit.spade)
      (some Suit.spade) = [⟨Suit.spade, Rank.ace⟩] ∧
    legalCards [⟨Suit.heart, Rank.n9⟩, ⟨Suit.diamond, Rank.n10⟩] (some Suit.spade)
      (some Suit.club) = [⟨Suit.heart, Rank.n9⟩, ⟨Suit.diamond, Rank.n10⟩] := by
  constructor
  · exact ((claim3_main [⟨Suit.spade, Rank.ace⟩, ⟨Suit.heart, Rank.n9⟩] (some Suit.spade)
      Suit.spade).2.1 ⟨⟨Suit.spade, Rank.ace⟩, by decide, by decide⟩).trans (by decide)
  · exact (claim3_main [⟨Suit.heart, Rank.n9⟩, ⟨Suit.diamond, Rank.n10⟩] (some Suit.spade)
      Suit.club).2.2 (by decide)

theorem dealLoop_step0 (h0l h1l h2l h3l : List Card) (front : List Card) (c : Card)
    (n : Nat) :
    dealLoop [h0l, h1l, h2l, h3l] (front ++ [c]) 0 (n + 1) =
      dealLoop [h0l ++ [c], h1l, h2l, h3l] front 1 n := by
  simp [dealLoop, List.getLast?_concat, List.dropLast_concat]

theorem dealLoop_step1 (h0l h1l h2l h3l : List Card) (front : List Card) (c : Card)
    (n : Nat) :
    dealLoop [h0l, h1l, h2l, h3l] (front ++ [c]) 1 (n + 1) =
      dealLoop [h0l, h1l ++ [c], h2l, h3l] front 2 n := by
  simp [dealLoop, List.getLast?_concat, List.dropLast_concat]

theorem dealLoop_step2 (h0l h1l h2l h3l : List Card) (front : List Card) (c : Card)
    (n : Nat) :
    dealLoop [h0l, h1l, h2l, h3l] (front ++ [c]) 2 (n + 1) =
      dealLoop [h0l, h1l, h2l ++ [c], h3l] front 3 n := by
  simp [dealLoop, List.getLast?_concat, List.dropLast_concat]

theorem dealLoop_step3 (h0l h1l h2l h3l : List Card) (front : List Card) (c : Card)
    (n : Nat) :
    dealLoop [h0l, h1l, h2l, h3l] (front ++ [c]) 3 (n + 1) =
      dealLoop [h0l, h1l, h2l, h3l ++ [c]] front 0 n := by
  simp [dealLoop, List.getLast?_concat, List.dropLast_concat]

theorem dealHand_eval (c0 c1 c2 c3 c4 c5 c6 c7 c8 c9 c10 c11 c12 c13 c14 c15
    c16 c17 c18 c19 c20 c21 c22 c23 : Card) :
    dealHand [c0, c1, c2, c3, c4, c5, c6, c7, c8, c9, c10, c11, c12, c13, c14,
      c15, c16, c17, c18, c19, c20, c21, c22, c23] =
      ([[c23, c19, c15, c11, c7], [c22, c18, c14, c10, c6],
        [c21, c17, c13, c9, c5], [c20, c16, c12, c8, c4]], some c3) := by
  have hloop : dealLoop [[], [], [], []] ([c0, c1, c2, c3, c4, c5, c6, c7, c8, c9, c10, c11, c12, c13, c14,
      c15, c16, c17, c18, c19, c20, c21, c22, c23] : List Card) 0 20 =
      ([[c23, c19, c15, c11, c7], [c22, c18, c14, c10, c6],
        [c21, c17, c13, c9, c5], [c20, c16, c12, c8, c4]], [c0, c1, c2, c3]) := by
    rw [(show ([c0, c1, c2, c3, c4, c5, c6, c7, c8, c9, c10, c11, c12, c13, c14,
      c15, c16, c17, c18, c19, c20, c21, c22, c23] : List Card) =
        (((((((((((((((((((([c0, c1, c2, c3] ++ [c4]) ++ [c5]) ++ [c6]) ++ [c7]) ++ [c8]) ++ [c9]) ++ [c10]) ++ [c11]) ++ [c12]) ++ [c13]) ++ [c14]) ++ [c15]) ++ [c16]) ++ [c17]) ++ [c18]) ++ [c19]) ++ [c20]) ++ [c21]) ++ [c22]) ++ [c23]) by simp)]
    rw [dealLoop_step0, dealLoop_step1, dealLoop_step2, dealLoop_step3, dealLoop_step0, dealLoop_step1, dealLoop_step2, dealLoop_step3, dealLoop_step0, dealLoop_step1, dealLoop_step2, dealLoop_step3, dealLoop_step0, dealLoop_step1, dealLoop_step2, dealLoop_step3, dealLoop_step0, dealLoop_step1, dealLoop_step2, dealLoop_step3]
    simp [dealLoop]
  have hup : ([c0, c1, c2, c3] : List Card).getLast? = some c3 := rfl
  unfold dealHand
  simp only [hloop, hup]

/-- Claim C8 as stated is false: with dealer 0 the first card popped from
the deck goes to seat 0, not to seat 1 (the seat left of the dealer).  On
the unshuffled deck the two dealing orders differ. -/
theorem claim8_counterexample :
    dealHand makeDeck ≠ dealHandFromLeftOfDealer makeDeck 0 := by
  decide

/-- Claim C8, amended: the deal pops 20 cards off the end of the shuffled
deck in strict round robin starting from seat 0 (independently of the
dealer), giving each of the four seats exactly 5 cards, and turns the next
card face up as the upcard; the deck itself is a permutation of the full
24-card `makeDeck`, which has 24 pairwise-distinct cards; and the deal
transition enters `bid1` with the turn at the seat left of the dealer. -/
theorem claim8_main (c0 c1 c2 c3 c4 c5 c6 c7 c8 c9 c10 c11 c12 c13 c14 c15 c16
    c17 c18 c19 c20 c21 c22 c23 : Card) (choices : Nat → Nat) (st : GameState)
    (deck : List Card) (nd : Nat) :
    dealHand [c0, c1, c2, c3, c4, c5, c6, c7, c8, c9, c10, c11, c12, c13, c14,
        c15, c16, c17, c18, c19, c20, c21, c22, c23] =
      ([[c23, c19, c15, c11, c7], [c22, c18, c14, c10, c6],
        [c21, c17, c13, c9, c5], [c20, c16, c12, c8, c4]], some c3) ∧
    (shuffle choices makeDeck).Perm makeDeck ∧
    makeDeck.length = 24 ∧ makeDeck.Nodup ∧
    (startNewHand st deck nd).turn = (nd + 1) % 4 ∧
    (startNewHand st deck nd).phase = Phase.bid1 :=
  ⟨dealHand_eval c0 c1 c2 c3 c4 c5 c6 c7 c8 c9 c10 c11 c12 c13 c14 c15 c16 c17
      c18 c19 c20 c21 c22 c23,
    shuffle_perm choices makeDeck, by decide, by decide, rfl, rfl⟩

theorem filter_ne_length_of_count_one {α : Type _} [DecidableEq α] :
    ∀ (l : List α) (c : α), l.count c = 1 →
      (l.filter fun x => ¬(x = c)).length + 1 = l.length
  | [], c, h => by simp at h
  | a :: t, c, h => by
    by_cases hac : a = c
    · subst hac
      have h1 : t.count a = 0 := by
        have := List.count_cons_self a t
        omega
      have h2 : (a :: t).filter (fun x => ¬(x = a)) = t.filter (fun x => ¬(x = a)) := by
        simp [List.filter_cons]
      have h3 : t.filter (fun x => ¬(x = a)) = t :=
        List.filter_eq_self.mpr (by
          intro b hb
          simp only [decide_eq_true_eq]
          intro hba
          rw [List.count_eq_zero] at h1
          exact h1 (hba ▸ hb))
      rw [h2, h3]
      simp
    · have h' : t.count c = 1 := by
        rwa [List.count_cons_of_ne (fun hh => hac hh.symm)] at h
      have ih := filter_ne_length_of_count_one t c h'
      have h2 : (a :: t).filter (fun x => ¬(x = c)) = a :: t.filter (fun x => ¬(x = c)) := by
        simp [List.filter_cons, hac]
      rw [h2]
      simp only [List.length_cons]
      omega

theorem filter_ne_count_self {α : Type _} [DecidableEq α] (l : List α) (c : α) :
    (l.filter fun x => ¬(x = c)).count c = 0 := by
  rw [List.count_eq_zero]
  intro hm
  have := List.mem_filter.mp hm
  simp at this

theorem filter_ne_count_other {α : Type _} [DecidableEq α] :
    ∀ (l : List α) (c d : α), d ≠ c →
      (l.filter fun x => ¬(x = c)).count d = l.count d
  | [], c, d, h => by simp
  | a :: t, c, d, h => by
    have ih := filter_ne_count_other t c d h
    by_cases hac : a = c
    · subst hac
      have h2 : (a :: t).filter (fun x => ¬(x = a)) = t.filter (fun x => ¬(x = a)) := by
        simp [List.filter_cons]
      rw [h2, ih, List.count_cons_of_ne h]
    · have h2 : (a :: t).filter (fun x => ¬(x = c)) = a :: t.filter (fun x => ¬(x = c)) := by
        simp [List.filter_cons, hac]
      rw [h2]
      by_cases hda : d = a
      · subst hda
        rw [List.count_cons_self, List.count_cons_self, ih]
      · rw [List.count_cons_of_ne hda, List.count_cons_of_ne hda, ih]

/-- Claim C10: a successful `playCard` removes exactly one copy of the
played card from the acting seat's hand (the hand shrinks by one, the
played card's count drops to zero, all other cards keep their counts),
leaves every other seat's hand and the upcard unchanged, and appends the
played card as the last entry of the current trick. -/
theorem claim10_main (s : GameState) (p : Nat) (c : Card)
    (hph : s.phase = Phase.playing) (hturn : p = s.turn)
    (hinact : inactivePlayer s ≠ some p)
    (hleg : c ∈ legalCards (s.hands.getD p []) s.trump (leadSuitOf s))
    (hcount : (s.hands.getD p []).count c = 1)
    (hlen : s.hands.length = 4) (hp4 : p < 4) :
    ((playCardA s p c).hands.getD p []).length + 1 = (s.hands.getD p []).length ∧
    ((playCardA s p c).hands.getD p []).count c = 0 ∧
    (∀ d : Card, d ≠ c →
      ((playCardA s p c).hands.getD p []).count d = (s.hands.getD p []).count d) ∧
    (∀ q, q < 4 → q ≠ p → (playCardA s p c).hands.getD q [] = s.hands.getD q []) ∧
    (playCardA s p c).upcard = s.upcard ∧
    (playCardA s p c).trick = s.trick ++ [⟨p, c⟩] := by
  have hset : ∀ v : List Card, (s.hands.set p v).getD p [] = v := by
    intro v
    rw [List.getD_eq_getElem?_getD, List.getElem?_set_self (by omega)]
    rfl
  have hset2 : ∀ (v : List Card) (q : Nat), q ≠ p →
      (s.hands.set p v).getD q [] = s.hands.getD q [] := by
    intro v q hq
    rw [List.getD_eq_getElem?_getD, List.getElem?_set_ne (fun hh => hq hh.symm),
      ← List.getD_eq_getElem?_getD]
  unfold playCardA
  rw [if_neg (not_ne_iff.mpr hph), if_neg (not_ne_iff.mpr hturn), if_neg hinact]
  dsimp only
  rw [if_pos hleg]
  split
  · refine ⟨?_, ?_, ?_, ?_, rfl, rfl⟩
    · dsimp only
      rw [hset]
      exact filter_ne_length_of_count_one _ _ hcount
    · dsimp only
      rw [hset]
      exact filter_ne_count_self _ _
    · intro d hd
      dsimp only
      rw [hset]
      exact filter_ne_count_other _ _ _ hd
    · intro q hq hqp
      dsimp only
      exact hset2 _ q hqp
  · refine ⟨?_, ?_, ?_, ?_, rfl, rfl⟩
    · dsimp only
      rw [hset]
      exact filter_ne_length_of_count_one _ _ hcount
    · dsimp only
      rw [hset]
      exact filter_ne_count_self _ _
    · intro d hd
      dsimp only
      rw [hset]
      exact filter_ne_count_other _ _ _ hd
    · intro q hq hqp
      dsimp only
      exact hset2 _ q hqp

/-- Concrete instance of `claim10_main`: seat 0 leads the A♠ from `ws10`. -/
theorem claim10_witness :
    ((playCardA ws10 0 ⟨Suit.spade, Rank.ace⟩).hands.getD 0 []).length + 1 =
      (ws10.hands.getD 0 []).length ∧
    (playCardA ws10 0 ⟨Suit.spade, Rank.ace⟩).trick = [⟨0, ⟨Suit.spade, Rank.ace⟩⟩] :=
  have h := claim10_main ws10 0 ⟨Suit.spade, Rank.ace⟩ rfl rfl (by decide) (by decide)
    (by decide) (by decide) (by decide)
  ⟨h.1, h.2.2.2.2.2⟩

/-- Claim C4: when the 5th trick completes, the phase becomes `hand_over`
and scoring follows the table: without a lone seat, 5 maker tricks give
the maker team +2, 3 or 4 give +1, at most 2 give the defenders +2; with a
lone seat active the sweep is worth +4 instead of +2; the other team's
score is untouched in each case. -/
theorem claim4_main (s : GameState) (mt : Nat)
    (hc : s.tricksCompleted = 4)
    (hfull : s.trick.length = targetCount s)
    (hmt : s.makerTeam = some mt) (hmt2 : mt < 2)
    (hsl : s.score.length = 2) :
    (resolveTrickA s).phase = Phase.hand_over ∧
    (s.alonePlayer = none →
      ((resolveTrickA s).tricksWonTeam.getD mt 0 = 5 →
        (resolveTrickA s).score.getD mt 0 = s.score.getD mt 0 + 2 ∧
        (resolveTrickA s).score.getD (1 - mt) 0 = s.score.getD (1 - mt) 0) ∧
      ((resolveTrickA s).tricksWonTeam.getD mt 0 = 3 ∨
          (resolveTrickA s).tricksWonTeam.getD mt 0 = 4 →
        (resolveTrickA s).score.getD mt 0 = s.score.getD mt 0 + 1 ∧
        (resolveTrickA s).score.getD (1 - mt) 0 = s.score.getD (1 - mt) 0) ∧
      ((resolveTrickA s).tricksWonTeam.getD mt 0 ≤ 2 →
        (resolveTrickA s).score.getD (1 - mt) 0 = s.score.getD (1 - mt) 0 + 2 ∧
        (resolveTrickA s).score.getD mt 0 = s.score.getD mt 0)) ∧
    (s.alonePlayer.isSome = true →
      ((resolveTrickA s).tricksWonTeam.getD mt 0 = 5 →
        (resolveTrickA s).score.getD mt 0 = s.score.getD mt 0 + 4 ∧
        (resolveTrickA s).score.getD (1 - mt) 0 = s.score.getD (1 - mt) 0) ∧
      ((resolveTrickA s).tricksWonTeam.getD mt 0 = 3 ∨
          (resolveTrickA s).tricksWonTeam.getD mt 0 = 4 →
        (resolveTrickA s).score.getD mt 0 = s.score.getD mt 0 + 1 ∧
        (resolveTrickA s).score.getD (1 - mt) 0 = s.score.getD (1 - mt) 0) ∧
      ((resolveTrickA s).tricksWonTeam.getD mt 0 ≤ 2 →
        (resolveTrickA s).score.getD (1 - mt) 0 = s.score.getD (1 - mt) 0 + 2 ∧
        (resolveTrickA s).score.getD mt 0 = s.score.getD mt 0)) := by
  have hnl : ¬ s.trick.length < targetCount s := by omega
  have hgset : ∀ (i j : Nat) (v : Nat), i < 2 → j ≠ i →
      (s.score.set i v).getD i 0 = v ∧ (s.score.set i v).getD j 0 = s.score.getD j 0 := by
    intro i j v hi hj
    constructor
    · rw [List.getD_eq_getElem?_getD, List.getElem?_set_self (by omega)]
      rfl
    · rw [List.getD_eq_getElem?_getD, List.getElem?_set_ne (fun hh => hj hh.symm),
        ← List.getD_eq_getElem?_getD]
  have hd1 : (if mt = 0 then 1 else 0) = 1 - mt := by split <;> omega
  have hne : 1 - mt ≠ mt := by omega
  have hne2 : mt ≠ 1 - mt := by omega
  unfold resolveTrickA
  rw [if_neg hnl]
  dsimp only
  rw [hc, hmt]
  simp only [Option.getD_some]
  rw [if_pos trivial]
  rw [hd1]
  refine ⟨rfl, ?_, ?_⟩
  · intro hal
    rw [hal]
    rw [if_neg (by simp : ¬ (none : Option Nat).isSome = true)]
    split
    · next h5 =>
      refine ⟨fun _ => ?_, fun hcond => by dsimp only at hcond; omega,
        fun hcond => by dsimp only at hcond; omega⟩
      dsimp only
      exact ⟨(hgset mt (1 - mt) _ hmt2 hne).1, (hgset mt (1 - mt) _ hmt2 hne).2⟩
    · next h5 =>
      split
      · next h3 =>
        refine ⟨fun hcond => by dsimp only at hcond; omega, fun _ => ?_,
          fun hcond => by dsimp only at hcond; omega⟩
        dsimp only
        exact ⟨(hgset mt (1 - mt) _ hmt2 hne).1, (hgset mt (1 - mt) _ hmt2 hne).2⟩
      · next h3 =>
        refine ⟨fun hcond => by dsimp only at hcond; omega,
          fun hcond => by dsimp only at hcond; omega, fun _ => ?_⟩
        dsimp only
        exact ⟨(hgset (1 - mt) mt _ (by omega) hne2).1,
          (hgset (1 - mt) mt _ (by omega) hne2).2⟩
  · intro hsome
    rw [if_pos hsome]
    split
    · next h5 =>
      refine ⟨fun _ => ?_, fun hcond => by dsimp only at hcond; omega,
        fun hcond => by dsimp only at hcond; omega⟩
      dsimp only
      exact ⟨(hgset mt (1 - mt) _ hmt2 hne).1, (hgset mt (1 - mt) _ hmt2 hne).2⟩
    · next h5 =>
      split
      · next h3 =>
        refine ⟨fun hcond => by dsimp only at hcond; omega, fun _ => ?_,
          fun hcond => by dsimp only at hcond; omega⟩
        dsimp only
        exact ⟨(hgset mt (1 - mt) _ hmt2 hne).1, (hgset mt (1 - mt) _ hmt2 hne).2⟩
      · next h3 =>
        refine ⟨fun hcond => by dsimp only at hcond; omega,
          fun hcond => by dsimp only at hcond; omega, fun _ => ?_⟩
        dsimp only
        exact ⟨(hgset (1 - mt) mt _ (by omega) hne2).1,
          (hgset (1 - mt) mt _ (by omega) hne2).2⟩

/-- Concrete instance of `claim4_main`: from `ws4` the maker team sweeps
all 5 tricks and scores +2. -/
theorem claim4_witness :
    (resolveTrickA ws4).phase = Phase.hand_over ∧
    (resolveTrickA ws4).score.getD 0 0 = 2 ∧ (resolveTrickA ws4).score.getD 1 0 = 0 := by
  have h := claim4_main ws4 0 rfl (by decide) rfl (by decide) (by decide)
  have h5 : (resolveTrickA ws4).tricksWonTeam.getD 0 0 = 5 := by decide
  have hm := (h.2.1 rfl).1 h5
  exact ⟨h.1, by simpa [ws4] using hm.1, by simpa [ws4] using hm.2⟩

/-- Claim C5 as stated is false: after all four seats pass in round 2 the
forced-dealer state is reached (forcedDealerPick set, turn at the dealer),
but a further `pass()` by the dealer is *not* rejected — it is accepted
and appends two more entries to the bid log, so the state is not
unchanged. -/
theorem claim5_counterexample :
    (passA (passA (passA (passA cs5)))).forcedDealerPick = true ∧
    (passA (passA (passA (passA cs5)))).turn = cs5.dealer ∧
    passA (passA (passA (passA (passA cs5)))) ≠ passA (passA (passA (passA cs5))) ∧
    (passA (passA (passA (passA (passA cs5))))).bidLog.length =
      (passA (passA (passA (passA cs5)))).bidLog.length + 2 := by
  decide

/-- Claim C5, amended: if all 4 seats pass in round 2 then
`forcedDealerPick` becomes true and the turn moves to the dealer; a
subsequent `pass()` by the dealer is accepted rather than rejected, but it
only appends its two log messages — every other component of the state
(phase, turn, flags, hands, trick, scores) is left exactly as it was. -/
theorem claim5_main (s : GameState) (hph : s.phase = Phase.bid2)
    (hturn : s.turn = (s.dealer + 1) % 4) (hd : s.dealer < 4) :
    (passA (passA (passA (passA s)))).forcedDealerPick = true ∧
    (passA (passA (passA (passA s)))).turn = s.dealer ∧
    passA (passA (passA (passA (passA s)))) =
      { passA (passA (passA (passA s))) with
        bidLog := (passA (passA (passA (passA s)))).bidLog ++
          [LogEntry.passes s.dealer, LogEntry.screwDealer s.dealer] } := by
  have h4 : s.dealer = 0 ∨ s.dealer = 1 ∨ s.dealer = 2 ∨ s.dealer = 3 := by omega
  rcases h4 with h | h | h | h <;>
    simp [passA, hph, hturn, h]

/-- Concrete instance of `claim5_main` at `cs5`. -/
theorem claim5_witness :
    (passA (passA (passA (passA cs5)))).forcedDealerPick = true ∧
    (passA (passA (passA (passA cs5)))).turn = cs5.dealer := by
  have h := claim5_main cs5 rfl rfl (by decide)
  exact ⟨h.1, h.2.1⟩

/-- Claim C7 as stated is false: `dealerPickupAndDiscard` performs no
validation, so "discarding a card not held" is not rejected — invoked on
`cs7` with the A♦ (held by nobody concerned), it still pushes the upcard
into the dealer's hand (which grows to 6 cards) and moves the game to the
playing phase. -/
theorem claim7_counterexample :
    dealerPickupAndDiscardA cs7 ⟨Suit.diamond, Rank.ace⟩ ≠ cs7 ∧
    ((dealerPickupAndDiscardA cs7 ⟨Suit.diamond, Rank.ace⟩).hands.getD 0 []).length = 6 ∧
    (cs7.hands.getD 0 []).length = 5 ∧
    (dealerPickupAndDiscardA cs7 ⟨Suit.diamond, Rank.ace⟩).phase = Phase.playing := by
  decide

/-- Claim C7, amended: the listed invalid actions are indeed silent no-ops
for `playCard` (wrong phase, out of turn, sitting-out seat, illegal card),
`callSuit` (upcard's suit, or wrong phase without the forced-dealer flag),
`orderUp` and `pass` (wrong phase) — the state, including the bid log, is
returned unchanged; `dealerPickupAndDiscard` however validates nothing
(see the counterexample). -/
theorem claim7_main (s : GameState) (p : Nat) (c : Card) (u : Card) (suit : Suit)
    (b : Bool) :
    (s.phase ≠ Phase.playing → playCardA s p c = s) ∧
    (p ≠ s.turn → playCardA s p c = s) ∧
    (inactivePlayer s = some p → playCardA s p c = s) ∧
    (c ∉ legalCards (s.hands.getD p []) s.trump (leadSuitOf s) → playCardA s p c = s) ∧
    (s.upcard = some u → callSuitA s u.s b = s) ∧
    (s.phase ≠ Phase.bid1 ∧ s.phase ≠ Phase.bid2 → passA s = s) ∧
    (s.phase ≠ Phase.bid1 → orderUpA s b = s) ∧
    (s.phase ≠ Phase.bid2 → s.forcedDealerPick = false → callSuitA s suit b = s) := by
  refine ⟨?_, ?_, ?_, ?_, ?_, ?_, ?_, ?_⟩
  · intro h
    unfold playCardA
    rw [if_pos h]
  · intro h
    unfold playCardA
    by_cases hq1 : s.phase ≠ Phase.playing
    · rw [if_pos hq1]
    · rw [if_neg hq1, if_pos h]
  · intro h
    unfold playCardA
    by_cases hq1 : s.phase ≠ Phase.playing
    · rw [if_pos hq1]
    · rw [if_neg hq1]
      by_cases hq2 : p ≠ s.turn
      · rw [if_pos hq2]
      · rw [if_neg hq2, if_pos h]
  · intro h
    unfold playCardA
    by_cases hq1 : s.phase ≠ Phase.playing
    · rw [if_pos hq1]
    · rw [if_neg hq1]
      by_cases hq2 : p ≠ s.turn
      · rw [if_pos hq2]
      · rw [if_neg hq2]
        by_cases hq3 : inactivePlayer s = some p
        · rw [if_pos hq3]
        · rw [if_neg hq3]
          dsimp only
          rw [if_neg h]
  · intro h
    unfold callSuitA
    by_cases hg : s.phase ≠ Phase.bid2 ∧ s.forcedDealerPick = false
    · rw [if_pos hg]
    · rw [if_neg hg, h]
      dsimp only
      rw [if_pos rfl]
  · intro h
    unfold passA
    rw [if_pos h]
  · intro h
    unfold orderUpA
    rw [if_pos h]
  · intro h hf
    unfold callSuitA
    rw [if_pos ⟨h, hf⟩]

/-- Concrete instances of `claim7_main`: a pass during play and an
out-of-turn card are both ignored on `ws10`. -/
theorem claim7_witness :
    passA ws10 = ws10 ∧ playCardA ws10 1 ⟨Suit.diamond, Rank.king⟩ = ws10 := by
  constructor
  · exact (claim7_main ws10 0 default default Suit.spade false).2.2.2.2.2.1
      (by decide)
  · exact (claim7_main ws10 1 ⟨Suit.diamond, Rank.king⟩ default Suit.spade false).2.1
      (by decide)

/-- Claim C6: in every reachable state of a hand played with a lone seat,
the lone seat's partner is never the turn during the playing phase, never
appears as a player in the current trick, the trick never exceeds 3 cards,
and a trick only resolves when it holds exactly 3 cards. -/
theorem claim6_main (s : GameState) (a : Nat) (hr : Reachable s)
    (ha : s.alonePlayer = some a) :
    (s.phase = Phase.playing → s.turn ≠ (a + 2) % 4) ∧
    (∀ e ∈ s.trick, e.player ≠ (a + 2) % 4) ∧
    s.trick.length ≤ 3 ∧
    (resolveTrickA s ≠ s → s.trick.length = 3) := by
  obtain ⟨hd, ht, htk, hf, htl, hpl, hal⟩ := reachable_inv hr
  have h1 := hal a ha
  have htc : targetCount s = 3 := by
    unfold targetCount inactivePlayer
    rw [ha]
    rfl
  refine ⟨h1.2.1, h1.2.2, by rw [← htc]; exact htl, ?_⟩
  intro hne
  by_contra h3
  have hlt : s.trick.length < 3 := by
    rw [← htc] at h3 ⊢
    omega
  apply hne
  unfold resolveTrickA
  rw [if_pos (by rw [htc]; exact hlt)]

/-- Concrete instance of `claim6_main` at the state reached by `acts6`:
seat 1 plays alone, so seat 3 is skipped. -/
theorem claim6_witness :
    (runA initState acts6).alonePlayer = some 1 ∧
    (runA initState acts6).turn ≠ (1 + 2) % 4 ∧
    (runA initState acts6).trick.length ≤ 3 := by
  have hr : Reachable (runA initState acts6) := runSound acts6 initState (by decide)
  have h := claim6_main (runA initState acts6) 1 hr (by decide)
  exact ⟨by decide, h.1 (by decide), h.2.2.1⟩

theorem terminal_step (s s2 : GameState) (hi : EngineInv s)
    (hph : s.phase = Phase.hand_over) (hg : gameOver s) (hstep : Step s s2) :
    s2 = s := by
  obtain ⟨hd, ht, htk, hf, htl, hpl, hal⟩ := hi
  cases hstep with
  | startDeal deck h =>
    rw [hph] at h
    exact nomatch h
  | nextHand deck h hg2 => exact absurd hg hg2
  | doPass =>
    unfold passA
    rw [if_pos ⟨(by rw [hph]; exact fun hh => nomatch hh),
      (by rw [hph]; exact fun hh => nomatch hh)⟩]
  | doOrderUp b =>
    unfold orderUpA
    rw [if_pos (by rw [hph]; exact fun hh => nomatch hh)]
  | doCallSuit su b =>
    have hff : s.forcedDealerPick = false := by
      cases hfp : s.forcedDealerPick
      · rfl
      · have h2 := hf hfp
        rw [hph] at h2
        exact nomatch h2
    unfold callSuitA
    rw [if_pos ⟨(by rw [hph]; exact fun hh => nomatch hh), hff⟩]
  | dealerDiscard c h hp2 =>
    rw [hph] at h
    exact nomatch h
  | botDiscard h hp2 ht2 =>
    rw [hph] at h
    exact nomatch h
  | skipInactive h1 h2 h3 => exact absurd hph h2
  | doPlayCard p c hlt =>
    unfold playCardA
    rw [if_pos (by rw [hph]; exact fun hh => nomatch hh)]
  | doResolveTrick =>
    have htk0 : s.trick = [] := htk (by rw [hph]; exact fun hh => nomatch hh)
    unfold resolveTrickA
    rw [if_pos (by rw [htk0]; unfold targetCount; cases inactivePlayer s <;> simp)]

/-- Claim C9: from any reachable game-over state (a team has 10 or more
points and the phase is `hand_over`), every sequence of further steps
leaves the state exactly as it is — in particular no further hand is ever
dealt and the phase remains `hand_over`. -/
theorem claim9_main (s s2 : GameState) (hr : Reachable s)
    (hph : s.phase = Phase.hand_over) (hg : gameOver s)
    (hsteps : Relation.ReflTransGen Step s s2) : s2 = s := by
  have hi := reachable_inv hr
  induction hsteps with
  | refl => rfl
  | tail hrest hstep ih =>
    rw [ih] at hstep
    exact terminal_step s _ hi hph hg hstep

/-- Concrete instance of `claim9_main`: the state reached by the full game
`acts9` has score 12 to 0 and phase `hand_over`, and a further `pass` step
leaves it unchanged. -/
theorem claim9_witness : passA (runA initState acts9) = runA initState acts9 :=
  claim9_main (runA initState acts9) (passA (runA initState acts9))
    (runSound acts9 initState (by decide)) (by decide) (by decide)
    (Relation.ReflTransGen.single (Step.doPass _))
